import Mathlib

/-
Verification of the closure-based functional utility library in
src/closure.js (unary, once, every, any, memorized, map, filter, zip,
forEach, and their arrow-style variants).

Shallow embedding conventions:
  * A JavaScript value is modelled by `JSValue` (undefined, null, booleans,
    integer numbers, strings); truthiness follows the ECMAScript ToBoolean
    coercion on these variants.
  * A user-supplied callable invoked as `fn.call(context, item)` is modelled
    as a Lean function `JSValue → JSValue → JSValue` taking the receiver
    first; the two-argument callable of `zip` takes the receiver and both
    items.
  * The closure state of `once` (the `done` latch) and of `memorized` (the
    `cached` object) is passed explicitly; each call returns the result, the
    updated state, and a Bool recording whether the underlying `fn` was
    invoked during that call.
  * A JavaScript object used as a cache (`JSObject`) carries its own
    properties — an association list from property keys (strings, via the
    ToPropertyKey coercion `toKey`) to values — and its prototype: property
    reads fall through to the Object.prototype chain (inherited built-in
    functions, the `__proto__` getter), and writes of `__proto__` run the
    inherited setter instead of storing an own entry.
  * Callables that may throw are modelled with `Except JSError JSValue`.
-/

namespace NanobashJS

/-- Model of a JavaScript value restricted to the variants exercised by the
utility library: undefined, null, booleans, (integer) numbers and strings,
plus the two kinds of object reachable through the prototype chain of a
plain object literal — the built-in function objects inherited from
Object.prototype (`protoFn name`, e.g. Object.prototype.toString) and the
Object.prototype object itself (`objectProto`, the value of the inherited
`__proto__` getter). -/
inductive JSValue where
  | undefined
  | null
  | bool (b : Bool)
  | num (n : Int)
  | str (s : String)
  | protoFn (name : String)
  | objectProto
deriving DecidableEq, Repr

/-- Model of a JavaScript error value thrown by a callable: either a
ReferenceError raised by the runtime (used for an unresolvable identifier
such as `arguments` in an arrow body with no enclosing function) or an
arbitrary thrown value. -/
inductive JSError where
  | referenceError
  | thrown (v : JSValue)
deriving DecidableEq, Repr

/-- ECMAScript ToBoolean on the modelled variants: undefined, null, false,
0 and the empty string are falsy; everything else — including every object,
hence the inherited built-in functions and Object.prototype — is truthy. -/
def truthy : JSValue → Bool
  | .undefined => false
  | .null => false
  | .bool b => b
  | .num n => n != 0
  | .str s => s != ""
  | .protoFn _ => true
  | .objectProto => true

/-- ECMAScript ToPropertyKey (string coercion) on the modelled variants, as
performed by the property access `cached[arg]` in `memorized`. A built-in
function stringifies to its native-code source form and Object.prototype to
the default object form. -/
def toKey : JSValue → String
  | .undefined => "undefined"
  | .null => "null"
  | .bool b => if b then "true" else "false"
  | .num n => toString n
  | .str s => s
  | .protoFn name => "function " ++ name ++ "() \x7b [native code] \x7d"
  | .objectProto => "[object Object]"

/-- The own property names of Object.prototype whose values are data
properties holding built-in function objects; a read of one of these keys
on a plain object literal with no own entry finds the truthy inherited
function. (`__proto__` is the remaining own property of Object.prototype,
an accessor, handled separately.) -/
def objectProtoFns : List String :=
  ["constructor", "hasOwnProperty", "isPrototypeOf", "propertyIsEnumerable",
   "toLocaleString", "toString", "valueOf",
   "__defineGetter__", "__defineSetter__", "__lookupGetter__", "__lookupSetter__"]

/-- A plain JavaScript object such as the `cached = {}` literal of
`memorized`: its own properties (an association list from property keys to
values) together with its prototype. In this value universe the prototype
can only be Object.prototype (the initial state of `{}`) or null (after
`__proto__` is assigned null), recorded by `protoIsNull`. -/
structure JSObject where
  entries : List (String × JSValue)
  protoIsNull : Bool
deriving DecidableEq, Repr

/-- Property read `cached[key]`: the own entry when present; otherwise the
prototype chain is consulted — on Object.prototype, `__proto__` triggers
the inherited getter (yielding Object.prototype itself) and the built-in
method names yield the inherited function objects; with a null prototype,
or for any other absent key, the read yields undefined. -/
def objectGet (obj : JSObject) (key : String) : JSValue :=
  match obj.entries.find? (fun entry => entry.1 == key) with
  | some entry => entry.2
  | none =>
      if obj.protoIsNull then .undefined
      else if key == "__proto__" then .objectProto
      else if objectProtoFns.contains key then .protoFn key
      else .undefined

/-- Own-property write: overwrite the existing entry for the key, or append
a new one. -/
def entriesSet : List (String × JSValue) → String → JSValue → List (String × JSValue)
  | [], key, v => [(key, v)]
  | entry :: rest, key, v =>
      if entry.1 == key then (key, v) :: rest else entry :: entriesSet rest key v

/-- Property write `cached[key] = v`. For the key `__proto__` while the
prototype is still Object.prototype, the assignment runs the inherited
setter and stores no own property: assigning null sets the prototype to
null; assigning Object.prototype itself leaves the prototype unchanged;
assigning a primitive is ignored by the setter. (Assigning one of the
inherited function objects would make that function the prototype, a state
outside this value universe; it is modelled as leaving the object
unchanged and is exercised by no claim.) Every other write — including a
write of `__proto__` once the prototype is null, when no inherited setter
exists any more — creates or overwrites an own property; an inherited data
property such as `toString` does not block the own write. -/
def objectSet (obj : JSObject) (key : String) (v : JSValue) : JSObject :=
  if key == "__proto__" && obj.protoIsNull == false then
    match v with
    | .null => JSObject.mk obj.entries true
    | _ => obj
  else
    JSObject.mk (entriesSet obj.entries key v) obj.protoIsNull

/-- Whether the cache object has an own property with the given key. -/
def cacheHas (obj : JSObject) (key : String) : Bool :=
  obj.entries.any (fun entry => entry.1 == key)

/-! ### every / any (src/closure.js lines 91-99 and 140-148) -/

/-- Loop of `every`: `for (const item of items) result = result && fn.call(context, item)`.
The JavaScript `&&` evaluates its right operand only when the left operand
is truthy, and yields the left operand otherwise. -/
def everyGo (fn : JSValue → JSValue → JSValue) (context : JSValue) :
    JSValue → List JSValue → JSValue
  | result, [] => result
  | result, item :: rest =>
      everyGo fn context (if truthy result then fn context item else result) rest

/-- Embedding of `every(items, fn, context)`: accumulator starts at `true`. -/
def every (items : List JSValue) (fn : JSValue → JSValue → JSValue)
    (context : JSValue) : JSValue :=
  everyGo fn context (.bool true) items

/-- Invocation trace of the `every` loop: the items on which `fn` is actually
invoked, i.e. those reached while the accumulator is still truthy (the right
operand of `&&` is not evaluated once the accumulator is falsy). -/
def everyCallsGo (fn : JSValue → JSValue → JSValue) (context : JSValue) :
    JSValue → List JSValue → List JSValue
  | _, [] => []
  | result, item :: rest =>
      if truthy result then
        item :: everyCallsGo fn context (fn context item) rest
      else
        everyCallsGo fn context result rest

/-- Items on which `every(items, fn, context)` invokes `fn`. -/
def everyCalls (items : List JSValue) (fn : JSValue → JSValue → JSValue)
    (context : JSValue) : List JSValue :=
  everyCallsGo fn context (.bool true) items

/-- Loop of `any`: `for (const item of items) result = result || fn.call(context, item)`.
The JavaScript `||` evaluates its right operand only when the left operand
is falsy, and yields the left operand otherwise. -/
def anyGo (fn : JSValue → JSValue → JSValue) (context : JSValue) :
    JSValue → List JSValue → JSValue
  | result, [] => result
  | result, item :: rest =>
      anyGo fn context (if truthy result then result else fn context item) rest

/-- Embedding of `any(items, fn, context)`: accumulator starts at `false`. -/
def any (items : List JSValue) (fn : JSValue → JSValue → JSValue)
    (context : JSValue) : JSValue :=
  anyGo fn context (.bool false) items

/-- Invocation trace of the `any` loop: the items on which `fn` is actually
invoked, i.e. those reached while the accumulator is still falsy. -/
def anyCallsGo (fn : JSValue → JSValue → JSValue) (context : JSValue) :
    JSValue → List JSValue → List JSValue
  | _, [] => []
  | result, item :: rest =>
      if truthy result then
        anyCallsGo fn context result rest
      else
        item :: anyCallsGo fn context (fn context item) rest

/-- Items on which `any(items, fn, context)` invokes `fn`. -/
def anyCalls (items : List JSValue) (fn : JSValue → JSValue → JSValue)
    (context : JSValue) : List JSValue :=
  anyCallsGo fn context (.bool false) items

/-- Arrow-style variant `everyArrow` (src/closure.js lines 115-123); its body
is identical to that of `every`. -/
def everyArrowGo (fn : JSValue → JSValue → JSValue) (context : JSValue) :
    JSValue → List JSValue → JSValue
  | result, [] => result
  | result, item :: rest =>
      everyArrowGo fn context (if truthy result then fn context item else result) rest

/-- Embedding of `everyArrow(items, fn, context)`. -/
def everyArrow (items : List JSValue) (fn : JSValue → JSValue → JSValue)
    (context : JSValue) : JSValue :=
  everyArrowGo fn context (.bool true) items

/-- Arrow-style variant `anyArrow` (src/closure.js lines 164-172); its body
is identical to that of `any`. -/
def anyArrowGo (fn : JSValue → JSValue → JSValue) (context : JSValue) :
    JSValue → List JSValue → JSValue
  | result, [] => result
  | result, item :: rest =>
      anyArrowGo fn context (if truthy result then result else fn context item) rest

/-- Embedding of `anyArrow(items, fn, context)`. -/
def anyArrow (items : List JSValue) (fn : JSValue → JSValue → JSValue)
    (context : JSValue) : JSValue :=
  anyArrowGo fn context (.bool false) items

/-! ### map / filter (src/closure.js lines 258-266, 282-290, 307-315, 331-339) -/

/-- Loop of `map`: `for (const item of items) results.push(fn.call(context, item))`,
with the results array threaded as an accumulator. -/
def mapGo (fn : JSValue → JSValue → JSValue) (context : JSValue) :
    List JSValue → List JSValue → List JSValue
  | results, [] => results
  | results, item :: rest => mapGo fn context (results ++ [fn context item]) rest

/-- Embedding of `map(items, fn, context)`: results start as the empty array. -/
def map (items : List JSValue) (fn : JSValue → JSValue → JSValue)
    (context : JSValue) : List JSValue :=
  mapGo fn context [] items

/-- Arrow-style variant `mapArrow`; its body is identical to that of `map`. -/
def mapArrowGo (fn : JSValue → JSValue → JSValue) (context : JSValue) :
    List JSValue → List JSValue → List JSValue
  | results, [] => results
  | results, item :: rest => mapArrowGo fn context (results ++ [fn context item]) rest

/-- Embedding of `mapArrow(items, fn, context)`. -/
def mapArrow (items : List JSValue) (fn : JSValue → JSValue → JSValue)
    (context : JSValue) : List JSValue :=
  mapArrowGo fn context [] items

/-- Loop of `filter`: `(fn.call(context, item) ? results.push(item) : undefined)`
for each item, with the results array threaded as an accumulator. -/
def filterGo (fn : JSValue → JSValue → JSValue) (context : JSValue) :
    List JSValue → List JSValue → List JSValue
  | results, [] => results
  | results, item :: rest =>
      filterGo fn context
        (if truthy (fn context item) then results ++ [item] else results) rest

/-- Embedding of `filter(items, fn, context)`. -/
def filter (items : List JSValue) (fn : JSValue → JSValue → JSValue)
    (context : JSValue) : List JSValue :=
  filterGo fn context [] items

/-- Arrow-style variant `filterArrow`; its body is identical to that of
`filter`. -/
def filterArrowGo (fn : JSValue → JSValue → JSValue) (context : JSValue) :
    List JSValue → List JSValue → List JSValue
  | results, [] => results
  | results, item :: rest =>
      filterArrowGo fn context
        (if truthy (fn context item) then results ++ [item] else results) rest

/-- Embedding of `filterArrow(items, fn, context)`. -/
def filterArrow (items : List JSValue) (fn : JSValue → JSValue → JSValue)
    (context : JSValue) : List JSValue :=
  filterArrowGo fn context [] items

/-! ### zip (src/closure.js lines 357-365, 382-390) -/

/-- Index loop of `zip`:
`for (index = 0; index < Math.min(leftArr.length, rightArr.length); ++index)
results.push(fn.call(context, leftArr[index], rightArr[index]))`.
Out-of-range indexing yields undefined, but the loop bound keeps every access
in range. -/
def zipGo (leftArr rightArr : List JSValue)
    (fn : JSValue → JSValue → JSValue → JSValue) (context : JSValue)
    (results : List JSValue) (index : Nat) : List JSValue :=
  if index < min leftArr.length rightArr.length then
    zipGo leftArr rightArr fn context
      (results ++ [fn context (leftArr.getD index .undefined) (rightArr.getD index .undefined)])
      (index + 1)
  else
    results
termination_by min leftArr.length rightArr.length - index
decreasing_by omega

/-- Embedding of `zip(leftArr, rightArr, fn, context)`. -/
def zip (leftArr rightArr : List JSValue)
    (fn : JSValue → JSValue → JSValue → JSValue) (context : JSValue) :
    List JSValue :=
  zipGo leftArr rightArr fn context [] 0

/-- Arrow-style variant `zipArrow`; its body is identical to that of `zip`. -/
def zipArrowGo (leftArr rightArr : List JSValue)
    (fn : JSValue → JSValue → JSValue → JSValue) (context : JSValue)
    (results : List JSValue) (index : Nat) : List JSValue :=
  if index < min leftArr.length rightArr.length then
    zipArrowGo leftArr rightArr fn context
      (results ++ [fn context (leftArr.getD index .undefined) (rightArr.getD index .undefined)])
      (index + 1)
  else
    results
termination_by min leftArr.length rightArr.length - index
decreasing_by omega

/-- Embedding of `zipArrow(leftArr, rightArr, fn, context)`. -/
def zipArrow (leftArr rightArr : List JSValue)
    (fn : JSValue → JSValue → JSValue → JSValue) (context : JSValue) :
    List JSValue :=
  zipArrowGo leftArr rightArr fn context [] 0

/-! ### forEach (src/closure.js lines 405-409, 423-427) -/

/-- Index loop of `forEach`:
`for (let i = 0; i < array.length; ++i) fn.call(context, array[i])`.
The JavaScript function returns undefined and is used for its effects; the
model returns the ordered list of results of the invocations it performs,
which records exactly which calls happen and in which order. -/
def forEachGo (array : List JSValue) (fn : JSValue → JSValue → JSValue)
    (context : JSValue) (calls : List JSValue) (i : Nat) : List JSValue :=
  if i < array.length then
    forEachGo array fn context (calls ++ [fn context (array.getD i .undefined)]) (i + 1)
  else
    calls
termination_by array.length - i
decreasing_by omega

/-- Embedding of `forEach(array, fn, context)`. -/
def forEach (array : List JSValue) (fn : JSValue → JSValue → JSValue)
    (context : JSValue) : List JSValue :=
  forEachGo array fn context [] 0

/-- Arrow-style variant `forEachArrow`; its body is identical to that of
`forEach`. -/
def forEachArrowGo (array : List JSValue) (fn : JSValue → JSValue → JSValue)
    (context : JSValue) (calls : List JSValue) (i : Nat) : List JSValue :=
  if i < array.length then
    forEachArrowGo array fn context (calls ++ [fn context (array.getD i .undefined)]) (i + 1)
  else
    calls
termination_by array.length - i
decreasing_by omega

/-- Embedding of `forEachArrow(array, fn, context)`. -/
def forEachArrow (array : List JSValue) (fn : JSValue → JSValue → JSValue)
    (context : JSValue) : List JSValue :=
  forEachArrowGo array fn context [] 0

/-! ### unary (src/closure.js lines 17-21 and 34) -/

/-- Model of a JavaScript function value as handled by `unary`: a declared
arity (the `length` property) and the behavior of calling it with a receiver
and an argument list. -/
structure JSFunction where
  length : Nat
  call : JSValue → List JSValue → JSValue

/-- Embedding of `unary(fn, context)`:
`1 === fn.length ? fn : function (arg) { return fn.call(context, arg); }`.
The wrapper declares one parameter (arity 1), ignores its own receiver, and
forwards only the first argument (undefined when called with none). -/
def unary (fn : JSFunction) (context : JSValue) : JSFunction :=
  if fn.length = 1 then fn
  else JSFunction.mk 1 (fun _this args => fn.call context [args.headD .undefined])

/-- Arrow-style variant `unaryArrow`; its body is identical to that of
`unary`. -/
def unaryArrow (fn : JSFunction) (context : JSValue) : JSFunction :=
  if fn.length = 1 then fn
  else JSFunction.mk 1 (fun _this args => fn.call context [args.headD .undefined])

/-! ### once (src/closure.js lines 49-55 and 70-74) -/

/-- One invocation of the closure returned by `once(fn, context)`:
`return true === done ? undefined : (done = true, fn.apply(context, arguments));`.
Input: the current `done` latch and the argument list; output: the call
outcome (which may be a thrown error propagated from `fn`), the new latch,
and whether `fn` was invoked. The comma operator sets `done = true` before
`fn` runs, so the latch is `true` afterwards even when `fn` throws. -/
def onceCall (fn : JSValue → List JSValue → Except JSError JSValue)
    (context : JSValue) (done : Bool) (args : List JSValue) :
    Except JSError JSValue × Bool × Bool :=
  if done = true then (Except.ok .undefined, done, false)
  else (fn context args, true, true)

/-- One invocation of the closure returned by `onceArrow(fn, context)`:
`return () => true === done ? undefined : (done = true, fn.apply(context, arguments));`.
The inner arrow function does not bind `arguments`; in script scope no
enclosing binding exists, so after `done = true` is executed, evaluating
`arguments` throws a ReferenceError and `fn` is never invoked. -/
def onceArrowCall (fn : JSValue → List JSValue → Except JSError JSValue)
    (context : JSValue) (done : Bool) (args : List JSValue) :
    Except JSError JSValue × Bool × Bool :=
  if done = true then (Except.ok .undefined, done, false)
  else (Except.error JSError.referenceError, true, false)

/-- Runs a sequence of invocations of a `once` closure from a given latch
state: returns the list of outcomes in order, the final latch, and the total
number of times the underlying `fn` was invoked. -/
def onceRun (fn : JSValue → List JSValue → Except JSError JSValue)
    (context : JSValue) (done : Bool) :
    List (List JSValue) → List (Except JSError JSValue) × Bool × Nat
  | [] => ([], done, 0)
  | args :: rest =>
      let step := onceCall fn context done args
      let restRun := onceRun fn context step.2.1 rest
      (step.1 :: restRun.1, restRun.2.1, (if step.2.2 then 1 else 0) + restRun.2.2)

/-! ### memorized (src/closure.js lines 188-207 and 222-241) -/

/-- Result of one call of a memorized closure: either an ordinary value, or
the cache object itself (returned when the show flag is taken). -/
inductive MemoResult where
  | value (v : JSValue)
  | cacheView (cached : JSObject)
deriving DecidableEq, Repr

/-- One invocation of the closure returned by `memorized(fn, context)`:
`function (arg, contextInner = null, show = false) { if (show) { return cached; }
return cached[arg] || (cached[arg] = fn.call(null !== contextInner ? contextInner : context, arg)); }`.
Input: the current cache; output: the result, the new cache, and whether
`fn` was invoked. The show test is a truthiness test. The read `cached[arg]`
goes through the prototype chain, so a truthy inherited property (such as
toString) short-circuits the `||` exactly like a truthy own entry; a falsy
read fails the `||` test, so `fn` is invoked and the entry written. -/
def memorizedCall (fn : JSValue → JSValue → JSValue) (context : JSValue)
    (cached : JSObject) (arg contextInner showFlag : JSValue) :
    MemoResult × JSObject × Bool :=
  if truthy showFlag then (MemoResult.cacheView cached, cached, false)
  else
    let current := objectGet cached (toKey arg)
    if truthy current then (MemoResult.value current, cached, false)
    else
      let v := fn (if contextInner ≠ JSValue.null then contextInner else context) arg
      (MemoResult.value v, objectSet cached (toKey arg) v, true)

/-- One invocation of the closure returned by `memorizedArrow(fn, context)`.
Its body differs from `memorizedCall` in one place: the show test is the
strict comparison `true === show` instead of a truthiness test. -/
def memorizedArrowCall (fn : JSValue → JSValue → JSValue) (context : JSValue)
    (cached : JSObject) (arg contextInner showFlag : JSValue) :
    MemoResult × JSObject × Bool :=
  if showFlag = JSValue.bool true then (MemoResult.cacheView cached, cached, false)
  else
    let current := objectGet cached (toKey arg)
    if truthy current then (MemoResult.value current, cached, false)
    else
      let v := fn (if contextInner ≠ JSValue.null then contextInner else context) arg
      (MemoResult.value v, objectSet cached (toKey arg) v, true)

/-- Repeats the same invocation of a memorized closure `n` times from a
given cache state: returns the final cache and the total number of times the
underlying `fn` was invoked. -/
def memorizedRepeat (fn : JSValue → JSValue → JSValue) (context : JSValue)
    (arg contextInner showFlag : JSValue) : Nat → JSObject → JSObject × Nat
  | 0, cached => (cached, 0)
  | n + 1, cached =>
      let step := memorizedCall fn context cached arg contextInner showFlag
      let rest := memorizedRepeat fn context arg contextInner showFlag n step.2.1
      (rest.1, (if step.2.2 then 1 else 0) + rest.2)

/-! ### Specification-side characterizations -/

/-- The maximal initial segment of the items on which the `every` loop can
invoke `fn`: each item up to and including the first one whose result is
falsy, and nothing after it. -/
def callsUntilFalsy (fn : JSValue → JSValue → JSValue) (context : JSValue) :
    List JSValue → List JSValue
  | [] => []
  | item :: rest =>
      item :: (if truthy (fn context item) then callsUntilFalsy fn context rest else [])

/-- The maximal initial segment of the items on which the `any` loop can
invoke `fn`: each item up to and including the first one whose result is
truthy, and nothing after it. -/
def callsUntilTruthy (fn : JSValue → JSValue → JSValue) (context : JSValue) :
    List JSValue → List JSValue
  | [] => []
  | item :: rest =>
      item :: (if truthy (fn context item) then [] else callsUntilTruthy fn context rest)

/-! ### Shared lemmas -/

/-- Once the accumulator of the `every` loop is falsy, the right operand of
`&&` is never evaluated again: no further invocation of `fn` happens. -/
theorem everyCallsGo_falsy (fn : JSValue → JSValue → JSValue) (context result : JSValue)
    (l : List JSValue) (h : truthy result = false) :
    everyCallsGo fn context result l = [] := by
  induction l with
  | nil => rfl
  | cons item rest ih => simp [everyCallsGo, h, ih]

/-- Once the accumulator of the `any` loop is truthy, the right operand of
`||` is never evaluated again: no further invocation of `fn` happens. -/
theorem anyCallsGo_truthy (fn : JSValue → JSValue → JSValue) (context result : JSValue)
    (l : List JSValue) (h : truthy result = true) :
    anyCallsGo fn context result l = [] := by
  induction l with
  | nil => rfl
  | cons item rest ih => simp [anyCallsGo, h, ih]

/-- From a truthy accumulator, the `every` loop invokes `fn` exactly on the
items up to and including the first falsy result. -/
theorem everyCallsGo_truthy (fn : JSValue → JSValue → JSValue) (context : JSValue)
    (l : List JSValue) :
    ∀ result, truthy result = true →
      everyCallsGo fn context result l = callsUntilFalsy fn context l := by
  induction l with
  | nil => intro result h; rfl
  | cons item rest ih =>
      intro result h
      simp only [everyCallsGo, h, if_true, callsUntilFalsy]
      by_cases hc : truthy (fn context item) = true
      · simp [hc, ih _ hc]
      · simp only [Bool.not_eq_true] at hc
        simp [hc, everyCallsGo_falsy fn context _ rest hc]

/-- From a falsy accumulator, the `any` loop invokes `fn` exactly on the
items up to and including the first truthy result. -/
theorem anyCallsGo_falsy (fn : JSValue → JSValue → JSValue) (context : JSValue)
    (l : List JSValue) :
    ∀ result, truthy result = false →
      anyCallsGo fn context result l = callsUntilTruthy fn context l := by
  induction l with
  | nil => intro result h; rfl
  | cons item rest ih =>
      intro result h
      simp only [anyCallsGo, h, Bool.false_eq_true, if_false, callsUntilTruthy]
      by_cases hc : truthy (fn context item) = true
      · simp [hc, anyCallsGo_truthy fn context _ rest hc]
      · simp only [Bool.not_eq_true] at hc
        simp [hc, ih _ hc]

/-- Truthiness of the `every` accumulator after the loop: the initial
accumulator and all invocation results must be truthy. -/
theorem truthy_everyGo (fn : JSValue → JSValue → JSValue) (context : JSValue)
    (l : List JSValue) :
    ∀ result, truthy (everyGo fn context result l)
      = (truthy result && l.all fun item => truthy (fn context item)) := by
  induction l with
  | nil => intro result; simp [everyGo]
  | cons item rest ih =>
      intro result
      simp only [everyGo, ih, List.all_cons]
      by_cases h : truthy result = true
      · simp [h]
      · simp only [Bool.not_eq_true] at h
        simp [h]

/-- Truthiness of the `any` accumulator after the loop: the initial
accumulator or some invocation result must be truthy. -/
theorem truthy_anyGo (fn : JSValue → JSValue → JSValue) (context : JSValue)
    (l : List JSValue) :
    ∀ result, truthy (anyGo fn context result l)
      = (truthy result || l.any fun item => truthy (fn context item)) := by
  induction l with
  | nil => intro result; simp [anyGo]
  | cons item rest ih =>
      intro result
      simp only [anyGo, ih, List.any_cons]
      by_cases h : truthy result = true
      · simp [h]
      · simp only [Bool.not_eq_true] at h
        simp [h]

/-- When every item evaluates to the boolean true, the `every` loop keeps
the accumulator at the boolean true. -/
theorem everyGo_all_true (fn : JSValue → JSValue → JSValue) (context : JSValue)
    (l : List JSValue) (h : ∀ x ∈ l, fn context x = JSValue.bool true) :
    everyGo fn context (.bool true) l = JSValue.bool true := by
  induction l with
  | nil => rfl
  | cons item rest ih =>
      have hi : fn context item = JSValue.bool true := h item (by simp)
      simp only [everyGo, truthy, if_true, hi]
      exact ih fun x hx => h x (by simp [hx])

/-- The `filter` loop appends to its accumulator exactly the items whose
result is truthy, in order. -/
theorem filterGo_eq (fn : JSValue → JSValue → JSValue) (context : JSValue)
    (l : List JSValue) :
    ∀ results, filterGo fn context results l
      = results ++ l.filter fun item => truthy (fn context item) := by
  induction l with
  | nil => intro results; simp [filterGo]
  | cons item rest ih =>
      intro results
      by_cases h : truthy (fn context item) = true
      · simp [filterGo, h, ih]
      · simp only [Bool.not_eq_true] at h
        simp [filterGo, h, ih]

/-- The `map` loop appends to its accumulator the image of every item, in
order. -/
theorem mapGo_eq (fn : JSValue → JSValue → JSValue) (context : JSValue)
    (l : List JSValue) :
    ∀ results, mapGo fn context results l = results ++ l.map (fn context) := by
  induction l with
  | nil => intro results; simp [mapGo]
  | cons item rest ih => intro results; simp [mapGo, ih]

/-- The own-property write stores the value under the key. -/
theorem find?_entriesSet (l : List (String × JSValue)) (key : String) (v : JSValue) :
    (entriesSet l key v).find? (fun entry => entry.1 == key) = some (key, v) := by
  induction l with
  | nil => simp [entriesSet, List.find?]
  | cons entry rest ih =>
      by_cases h : entry.1 = key
      · simp [entriesSet, h, List.find?]
      · have hb : (entry.1 == key) = false := by simp [h]
        simp only [entriesSet, hb, Bool.false_eq_true, if_false]
        rw [List.find?_cons_of_neg _ (by simp [h])]
        exact ih

/-- For a key other than `__proto__`, reading right after writing yields the
written value: the write creates an own entry, which shadows any inherited
property of the same name. -/
theorem objectGet_objectSet (obj : JSObject) (key : String) (v : JSValue)
    (h : (key == "__proto__") = false) :
    objectGet (objectSet obj key v) key = v := by
  simp only [objectSet, h, Bool.false_and, Bool.false_eq_true, if_false]
  simp [objectGet, find?_entriesSet]

/-- A fired `once` closure performs no work: every further invocation
returns undefined, keeps the latch fired, and never invokes `fn`. -/
theorem onceRun_fired (fn : JSValue → List JSValue → Except JSError JSValue)
    (context : JSValue) (calls : List (List JSValue)) :
    onceRun fn context true calls
      = (calls.map fun _ => Except.ok JSValue.undefined, true, 0) := by
  induction calls with
  | nil => rfl
  | cons args rest ih => simp [onceRun, onceCall, ih]

/-- The index loop of `zip` appends, to its accumulator, the combination of
the two arrays at each index from the current one up to the shared length. -/
theorem zipGo_eq (leftArr rightArr : List JSValue)
    (fn : JSValue → JSValue → JSValue → JSValue) (context : JSValue) :
    ∀ fuel index results, index + fuel = min leftArr.length rightArr.length →
      zipGo leftArr rightArr fn context results index
        = results ++ (List.range' index fuel).map
            (fun i => fn context (leftArr.getD i .undefined) (rightArr.getD i .undefined)) := by
  intro fuel
  induction fuel with
  | zero =>
      intro index results h
      rw [zipGo]
      simp [show ¬ index < min leftArr.length rightArr.length by omega]
  | succ fuel ih =>
      intro index results h
      rw [zipGo]
      simp only [show index < min leftArr.length rightArr.length by omega, if_true]
      rw [ih (index + 1) _ (by omega)]
      simp [List.range'_succ]

/-- `zip` produces the combination of the two arrays at every index below
the shared length, in order. -/
theorem zip_eq (leftArr rightArr : List JSValue)
    (fn : JSValue → JSValue → JSValue → JSValue) (context : JSValue) :
    zip leftArr rightArr fn context
      = (List.range' 0 (min leftArr.length rightArr.length)).map
          (fun i => fn context (leftArr.getD i .undefined) (rightArr.getD i .undefined)) := by
  simpa using zipGo_eq leftArr rightArr fn context (min leftArr.length rightArr.length) 0 [] (by omega)

/-- When the result of `fn` at the repeated argument is falsy for every
receiver and the key is not `__proto__`, a memorized closure whose cache
reads at the key are falsy never finds a truthy entry again: each of the
`n` repeated calls invokes `fn` anew. -/
theorem memorizedRepeat_falsy (fn : JSValue → JSValue → JSValue)
    (context arg contextInner : JSValue)
    (hfn : ∀ c, truthy (fn c arg) = false)
    (hk : (toKey arg == "__proto__") = false) :
    ∀ n cached, truthy (objectGet cached (toKey arg)) = false →
      (memorizedRepeat fn context arg contextInner (.bool false) n cached).2 = n := by
  intro n
  induction n with
  | zero => intro cached h; rfl
  | succ n ih =>
      intro cached h
      have hstep : memorizedCall fn context cached arg contextInner (.bool false)
          = (MemoResult.value (fn (if contextInner ≠ JSValue.null then contextInner else context) arg),
             objectSet cached (toKey arg)
               (fn (if contextInner ≠ JSValue.null then contextInner else context) arg),
             true) := by
        simp [memorizedCall, h, show truthy (JSValue.bool false) = false from rfl]
      have hinv : truthy (objectGet
          (objectSet cached (toKey arg)
            (fn (if contextInner ≠ JSValue.null then contextInner else context) arg))
          (toKey arg)) = false := by
        rw [objectGet_objectSet _ _ _ hk]; exact hfn _
      simp only [memorizedRepeat, hstep]
      simp only [if_true]
      rw [ih _ hinv]
      omega

/-! ## Claims -/

/-- C1 counterexample: with items `[0, 1]` and `fn` the identity on the
item, the `every` loop invokes `fn` only on the first item — the falsy
result `0` makes `&&` skip the invocation on the second item — refuting the
claim that `fn` is invoked once per element for every element with no
short-circuit. -/
theorem everyCalls_not_all_elements :
    everyCalls [.num 0, .num 1] (fun _ item => item) .null ≠ [.num 0, .num 1] := by
  decide

/-- C1 (amended): `every` and `any` iterate over the whole array, but the
accumulate-with-`&&` (resp. `||`) step short-circuits the invocation of
`fn`: `every` invokes `fn` exactly on each element up to and including the
first one whose result is falsy, and `any` exactly on each element up to
and including the first one whose result is truthy. -/
theorem everyCalls_anyCalls_short_circuit (items : List JSValue)
    (fn : JSValue → JSValue → JSValue) (context : JSValue) :
    everyCalls items fn context = callsUntilFalsy fn context items
      ∧ anyCalls items fn context = callsUntilTruthy fn context items := by
  exact ⟨everyCallsGo_truthy fn context items (.bool true) rfl,
         anyCallsGo_falsy fn context items (.bool false) rfl⟩

/-- C2 counterexample: with key the string toString and `fn` constantly
returning the falsy number 0, the read `cached[arg]` on the fresh `{}`
cache finds the truthy inherited Object.prototype.toString, so the first
call returns that inherited function and two calls invoke `fn` zero times —
refuting the claim that `fn` is re-invoked on every call with a
falsy-result key. -/
theorem memorized_tostring_never_invoked :
    (∀ c, truthy ((fun (_ _ : JSValue) => JSValue.num 0) c (JSValue.str ("toString"))) = false)
      ∧ (memorizedCall (fun (_ _ : JSValue) => JSValue.num 0) JSValue.null
          (JSObject.mk [] false) (JSValue.str ("toString")) JSValue.null (.bool false)).1
        = MemoResult.value (JSValue.protoFn ("toString"))
      ∧ (memorizedRepeat (fun (_ _ : JSValue) => JSValue.num 0) JSValue.null
          (JSValue.str ("toString")) JSValue.null (.bool false) 2 (JSObject.mk [] false)).2
        = 0 := by
  exact ⟨fun _ => rfl, by decide, by decide⟩

/-- C2 (amended): for a key whose string form is neither `__proto__` nor
one of the Object.prototype method names — so that no truthy inherited
property is found — a `fn` returning a falsy value for the key never passes
the truthiness test `cached[arg] ||`, and every one of the `n` calls with
that key re-invokes `fn`, even after the result has been stored: caching is
effective only for truthy results. For the excluded colliding keys the
truthy inherited property is returned instead and `fn` is never invoked. -/
theorem memorized_falsy_recomputes (fn : JSValue → JSValue → JSValue)
    (context key contextInner : JSValue) (n : Nat)
    (hfn : ∀ c, truthy (fn c key) = false)
    (hk1 : (toKey key == "__proto__") = false)
    (hk2 : objectProtoFns.contains (toKey key) = false) :
    (memorizedRepeat fn context key contextInner (.bool false) n (JSObject.mk [] false)).2
      = n := by
  have hk2m : toKey key ∉ objectProtoFns := by simpa using hk2
  have hfresh : truthy (objectGet (JSObject.mk [] false) (toKey key)) = false := by
    simp [objectGet, List.find?, hk1, hk2m, truthy]
  exact memorizedRepeat_falsy fn context key contextInner hfn hk1 n _ hfresh

/-- C2 witness: a function constantly returning the falsy number 0,
memoized and called three times with the non-colliding key 1, is invoked
three times. -/
theorem memorized_falsy_recomputes_witness :
    (∀ c, truthy ((fun (_ _ : JSValue) => JSValue.num 0) c (JSValue.num 1)) = false)
      ∧ (toKey (JSValue.num 1) == "__proto__") = false
      ∧ objectProtoFns.contains (toKey (JSValue.num 1)) = false
      ∧ (memorizedRepeat (fun (_ _ : JSValue) => JSValue.num 0) JSValue.null (JSValue.num 1)
          JSValue.null (.bool false) 3 (JSObject.mk [] false)).2 = 3 := by
  exact ⟨fun _ => rfl, by decide, by decide,
    memorized_falsy_recomputes (fun (_ _ : JSValue) => JSValue.num 0) JSValue.null (JSValue.num 1)
      JSValue.null 3 (fun _ => rfl) (by decide) (by decide)⟩

/-- C6 counterexample: with `fn` constantly returning the truthy number 5,
`every([2], fn)` returns the number 5, not the boolean true, refuting the
claim that the returned value is a boolean equal to true when `fn` is
truthy on all elements. -/
theorem every_returns_nonboolean :
    truthy ((fun (_ _ : JSValue) => JSValue.num 5) JSValue.null (JSValue.num 2)) = true
      ∧ every [JSValue.num 2] (fun (_ _ : JSValue) => JSValue.num 5) JSValue.null
          ≠ JSValue.bool true := by
  decide

/-- C6 (amended): the value returned by `every` is truthy iff `fn` is
truthy on all elements, and the value returned by `any` is truthy iff `fn`
is truthy on at least one element — but the returned value is the last
computed accumulator, not necessarily a boolean; on the empty array the
returned values are exactly the booleans true and false. -/
theorem every_any_truthiness (items : List JSValue)
    (fn : JSValue → JSValue → JSValue) (context : JSValue) :
    truthy (every items fn context) = (items.all fun item => truthy (fn context item))
      ∧ truthy (any items fn context) = (items.any fun item => truthy (fn context item))
      ∧ every [] fn context = JSValue.bool true
      ∧ any [] fn context = JSValue.bool false := by
  refine ⟨?_, ?_, rfl, rfl⟩
  · rw [every, truthy_everyGo]; rfl
  · rw [any, truthy_anyGo]; rfl

/-- C3: a `once` closure invoked any number of times (at least once) calls
the underlying `fn` exactly once: the first invocation passes the provided
arguments with receiver `context` and returns the outcome of `fn`, every
subsequent invocation returns undefined without invoking `fn`, the latch
ends fired, and from the fired state no sequence of invocations does any
work or changes the latch back. -/
theorem once_fires_exactly_once (fn : JSValue → List JSValue → Except JSError JSValue)
    (context : JSValue) (args : List JSValue) (rest : List (List JSValue)) :
    onceRun fn context false (args :: rest)
        = (fn context args :: rest.map (fun _ => Except.ok JSValue.undefined), true, 1)
      ∧ ∀ calls, onceRun fn context true calls
        = (calls.map fun _ => Except.ok JSValue.undefined, true, 0) := by
  constructor
  · simp [onceRun, onceCall, onceRun_fired]
  · exact onceRun_fired fn context

/-- C10: when `fn` throws on the first invocation of a `once` closure, the
comma operator has already set the latch before `fn` runs: the error is the
outcome of the first call, the latch is fired, every subsequent call
returns undefined without invoking `fn`, and `fn` is invoked exactly once
in total — it is never retried even though it never completed. -/
theorem once_throwing_not_retried (fn : JSValue → List JSValue → Except JSError JSValue)
    (context : JSValue) (e : JSError) (args : List JSValue)
    (rest : List (List JSValue)) (h : fn context args = Except.error e) :
    onceRun fn context false (args :: rest)
      = (Except.error e :: rest.map (fun _ => Except.ok JSValue.undefined), true, 1) := by
  simp [onceRun, onceCall, h, onceRun_fired]

/-- C10 witness: a function that always throws the value 7, wrapped by
`once` and invoked twice, propagates the error on the first call and
returns undefined on the second, with a single invocation in total. -/
theorem once_throwing_not_retried_witness :
    ((fun (_ : JSValue) (_ : List JSValue) =>
        (Except.error (JSError.thrown (JSValue.num 7)) : Except JSError JSValue))
      JSValue.null [] = Except.error (JSError.thrown (JSValue.num 7)))
      ∧ onceRun (fun (_ : JSValue) (_ : List JSValue) =>
          (Except.error (JSError.thrown (JSValue.num 7)) : Except JSError JSValue))
          JSValue.null false [[], [JSValue.num 1]]
        = ([Except.error (JSError.thrown (JSValue.num 7)), Except.ok JSValue.undefined],
           true, 1) := by
  exact ⟨rfl, once_throwing_not_retried _ JSValue.null (JSError.thrown (JSValue.num 7))
    [] [[JSValue.num 1]] rfl⟩

/-- C4 counterexample: with `fn` constantly returning the falsy number 0 and
key 1, the second of two consecutive calls of the memoized closure invokes
`fn` again, refuting the claim that, for every `fn` and key, calling twice
in a row invokes `fn` only once. -/
theorem memorized_second_call_invokes_on_falsy :
    (memorizedCall (fun (_ _ : JSValue) => JSValue.num 0) JSValue.null
        (memorizedCall (fun (_ _ : JSValue) => JSValue.num 0) JSValue.null
          (JSObject.mk [] false) (JSValue.num 1) JSValue.null (JSValue.bool false)).2.1
        (JSValue.num 1) JSValue.null (JSValue.bool false)).2.2 = true := by
  decide

/-- C4 (amended): for a key whose string form is neither `__proto__` nor
one of the Object.prototype method names and whose `fn` result is truthy,
the first call of the memoized closure invokes `fn` with receiver =
override receiver if provided else the bound context and stores the result
as an own entry; the second call with the same key returns the same cached
result without invoking `fn` and leaves the cache unchanged; a call with
the inspect flag set returns the current cache, which contains the key,
without invoking `fn`. For an excluded colliding key the truthy inherited
property is returned instead, `fn` is never invoked and the cache never
gains the key. -/
theorem memorized_caches_truthy_result (fn : JSValue → JSValue → JSValue)
    (context key contextInner v : JSValue)
    (hv : v = fn (if contextInner ≠ JSValue.null then contextInner else context) key)
    (ht : truthy v = true)
    (hk1 : (toKey key == "__proto__") = false)
    (hk2 : objectProtoFns.contains (toKey key) = false) :
    memorizedCall fn context (JSObject.mk [] false) key contextInner (.bool false)
        = (MemoResult.value v, JSObject.mk [(toKey key, v)] false, true)
      ∧ memorizedCall fn context (JSObject.mk [(toKey key, v)] false) key contextInner
          (.bool false)
        = (MemoResult.value v, JSObject.mk [(toKey key, v)] false, false)
      ∧ memorizedCall fn context (JSObject.mk [(toKey key, v)] false) key contextInner
          (.bool true)
        = (MemoResult.cacheView (JSObject.mk [(toKey key, v)] false),
           JSObject.mk [(toKey key, v)] false, false)
      ∧ cacheHas (JSObject.mk [(toKey key, v)] false) (toKey key) = true := by
  have hv2 : v = fn (if contextInner = JSValue.null then context else contextInner) key := by
    rw [hv]; rcases eq_or_ne contextInner JSValue.null with h | h <;> simp [h]
  have hk2m : toKey key ∉ objectProtoFns := by simpa using hk2
  refine ⟨?_, ?_, ?_, ?_⟩
  · simp [memorizedCall, objectGet, objectSet, entriesSet, List.find?, hk1, hk2m, ← hv2,
      show truthy (JSValue.bool false) = false from rfl,
      show truthy JSValue.undefined = false from rfl]
  · simp [memorizedCall, objectGet, List.find?, ht,
      show truthy (JSValue.bool false) = false from rfl]
  · simp [memorizedCall, show truthy (JSValue.bool true) = true from rfl]
  · simp [cacheHas]

/-- C4 witness: memoizing a function constantly returning the truthy number
7, with the non-colliding key 1 and no override receiver, the second
consecutive call returns the cached 7 without invoking the function. -/
theorem memorized_caches_truthy_result_witness :
    (JSValue.num 7 = (fun (_ _ : JSValue) => JSValue.num 7)
        (if JSValue.null ≠ JSValue.null then JSValue.null else JSValue.null) (JSValue.num 1))
      ∧ truthy (JSValue.num 7) = true
      ∧ (toKey (JSValue.num 1) == "__proto__") = false
      ∧ objectProtoFns.contains (toKey (JSValue.num 1)) = false
      ∧ memorizedCall (fun (_ _ : JSValue) => JSValue.num 7) JSValue.null
          (JSObject.mk [(toKey (JSValue.num 1), JSValue.num 7)] false)
          (JSValue.num 1) JSValue.null (.bool false)
        = (MemoResult.value (JSValue.num 7),
           JSObject.mk [(toKey (JSValue.num 1), JSValue.num 7)] false, false) := by
  refine ⟨by decide, by decide, by decide, by decide, ?_⟩
  exact (memorized_caches_truthy_result (fun (_ _ : JSValue) => JSValue.num 7)
    JSValue.null (JSValue.num 1) JSValue.null (JSValue.num 7)
    (by decide) (by decide) (by decide) (by decide)).2.1

/-- The loop bodies of `every` and `everyArrow` are identical. -/
theorem everyGo_eq_arrowGo : everyGo = everyArrowGo := by
  funext fn context result l
  induction l generalizing result with
  | nil => rfl
  | cons item rest ih => simp [everyGo, everyArrowGo, ih]

/-- The loop bodies of `any` and `anyArrow` are identical. -/
theorem anyGo_eq_arrowGo : anyGo = anyArrowGo := by
  funext fn context result l
  induction l generalizing result with
  | nil => rfl
  | cons item rest ih => simp [anyGo, anyArrowGo, ih]

/-- The loop bodies of `map` and `mapArrow` are identical. -/
theorem mapGo_eq_arrowGo : mapGo = mapArrowGo := by
  funext fn context results l
  induction l generalizing results with
  | nil => rfl
  | cons item rest ih => simp [mapGo, mapArrowGo, ih]

/-- The loop bodies of `filter` and `filterArrow` are identical. -/
theorem filterGo_eq_arrowGo : filterGo = filterArrowGo := by
  funext fn context results l
  induction l generalizing results with
  | nil => rfl
  | cons item rest ih => simp [filterGo, filterArrowGo, ih]

/-- The index loop of `zipArrow` appends the same combinations as that of
`zip`. -/
theorem zipArrowGo_eq (leftArr rightArr : List JSValue)
    (fn : JSValue → JSValue → JSValue → JSValue) (context : JSValue) :
    ∀ fuel index results, index + fuel = min leftArr.length rightArr.length →
      zipArrowGo leftArr rightArr fn context results index
        = results ++ (List.range' index fuel).map
            (fun i => fn context (leftArr.getD i .undefined) (rightArr.getD i .undefined)) := by
  intro fuel
  induction fuel with
  | zero =>
      intro index results h
      rw [zipArrowGo]
      simp [show ¬ index < min leftArr.length rightArr.length by omega]
  | succ fuel ih =>
      intro index results h
      rw [zipArrowGo]
      simp only [show index < min leftArr.length rightArr.length by omega, if_true]
      rw [ih (index + 1) _ (by omega)]
      simp [List.range'_succ]

/-- The index loop of `forEach` performs the invocations at each index from
the current one up to the array length, in order. -/
theorem forEachGo_eq (array : List JSValue) (fn : JSValue → JSValue → JSValue)
    (context : JSValue) :
    ∀ fuel i calls, i + fuel = array.length →
      forEachGo array fn context calls i
        = calls ++ (List.range' i fuel).map (fun j => fn context (array.getD j .undefined)) := by
  intro fuel
  induction fuel with
  | zero =>
      intro i calls h
      rw [forEachGo]
      simp [show ¬ i < array.length by omega]
  | succ fuel ih =>
      intro i calls h
      rw [forEachGo]
      simp only [show i < array.length by omega, if_true]
      rw [ih (i + 1) _ (by omega)]
      simp [List.range'_succ]

/-- The index loop of `forEachArrow` performs the same invocations as that
of `forEach`. -/
theorem forEachArrowGo_eq (array : List JSValue) (fn : JSValue → JSValue → JSValue)
    (context : JSValue) :
    ∀ fuel i calls, i + fuel = array.length →
      forEachArrowGo array fn context calls i
        = calls ++ (List.range' i fuel).map (fun j => fn context (array.getD j .undefined)) := by
  intro fuel
  induction fuel with
  | zero =>
      intro i calls h
      rw [forEachArrowGo]
      simp [show ¬ i < array.length by omega]
  | succ fuel ih =>
      intro i calls h
      rw [forEachArrowGo]
      simp only [show i < array.length by omega, if_true]
      rw [ih (i + 1) _ (by omega)]
      simp [List.range'_succ]

/-- C5 counterexample: with the inspect flag set to the number 1 — truthy
but not the boolean true — `memorized` returns the cache view while
`memorizedArrow` computes and caches a value, refuting the claim that every
function-expression / arrow pair is semantically identical. -/
theorem memorizedArrow_differs_on_truthy_flag :
    memorizedCall (fun (_ _ : JSValue) => JSValue.num 7) JSValue.null (JSObject.mk [] false)
        (JSValue.num 3) JSValue.null (JSValue.num 1)
      ≠ memorizedArrowCall (fun (_ _ : JSValue) => JSValue.num 7) JSValue.null
        (JSObject.mk [] false) (JSValue.num 3) JSValue.null (JSValue.num 1) := by
  decide

/-- C5 (amended): the arrow variants of unary, every, any, map, filter, zip
and forEach are semantically identical to their function-expression
counterparts; memorizedArrow agrees with memorized whenever the inspect
flag is an actual boolean (they diverge on truthy non-boolean flags, whose
truthiness test differs from the strict comparison with true); onceArrow is
not equivalent to once, because its inner arrow function does not bind
`arguments`, so its first invocation throws instead of invoking `fn`. -/
theorem arrow_variants_equivalence :
    unary = unaryArrow
      ∧ every = everyArrow
      ∧ any = anyArrow
      ∧ map = mapArrow
      ∧ filter = filterArrow
      ∧ zip = zipArrow
      ∧ forEach = forEachArrow
      ∧ (∀ (fn : JSValue → JSValue → JSValue) (context : JSValue) (cached : JSObject)
           (arg contextInner : JSValue) (b : Bool),
          memorizedCall fn context cached arg contextInner (.bool b)
            = memorizedArrowCall fn context cached arg contextInner (.bool b))
      ∧ onceCall (fun (_ : JSValue) (_ : List JSValue) => Except.ok (JSValue.num 1))
          JSValue.null false []
        ≠ onceArrowCall (fun (_ : JSValue) (_ : List JSValue) => Except.ok (JSValue.num 1))
          JSValue.null false [] := by
  refine ⟨rfl, ?_, ?_, ?_, ?_, ?_, ?_, ?_, ?_⟩
  · funext items fn ctx
    rw [every, everyArrow, everyGo_eq_arrowGo]
  · funext items fn ctx
    rw [any, anyArrow, anyGo_eq_arrowGo]
  · funext items fn ctx
    rw [map, mapArrow, mapGo_eq_arrowGo]
  · funext items fn ctx
    rw [filter, filterArrow, filterGo_eq_arrowGo]
  · funext l r fn ctx
    rw [zip, zipArrow, zipGo_eq l r fn ctx (min l.length r.length) 0 [] (by omega),
      zipArrowGo_eq l r fn ctx (min l.length r.length) 0 [] (by omega)]
  · funext a fn ctx
    rw [forEach, forEachArrow, forEachGo_eq a fn ctx a.length 0 [] (by omega),
      forEachArrowGo_eq a fn ctx a.length 0 [] (by omega)]
  · intro fn context cached arg contextInner b
    cases b <;> simp [memorizedCall, memorizedArrowCall, truthy]
  · simp [onceCall, onceArrowCall]

/-- C7: `zip` produces a sequence of length the minimum of the two input
lengths, whose element at each index below that length is `fn` applied with
the receiver to the two elements at that index; in particular on a
three-element and a two-element array it yields exactly the two
combinations, the extra element being silently ignored. -/
theorem zip_min_length_pairs (leftArr rightArr : List JSValue)
    (fn : JSValue → JSValue → JSValue → JSValue) (context : JSValue) :
    (zip leftArr rightArr fn context).length = min leftArr.length rightArr.length
      ∧ (∀ i, i < min leftArr.length rightArr.length →
          (zip leftArr rightArr fn context).getD i .undefined
            = fn context (leftArr.getD i .undefined) (rightArr.getD i .undefined))
      ∧ ∀ a b c x y, zip [a, b, c] [x, y] fn context = [fn context a x, fn context b y] := by
  refine ⟨?_, ?_, ?_⟩
  · rw [zip_eq]; simp
  · intro i hi
    rw [zip_eq]
    rw [List.getD_eq_getElem _ _ (by simpa using hi)]
    simp
  · intro a b c x y
    rw [zip_eq]
    norm_num [List.range']

/-- C7 witness: zipping the singleton arrays [1] and [2] with the function
projecting its left item, the element at index 0 is that combination. -/
theorem zip_min_length_pairs_witness :
    0 < min ([JSValue.num 1] : List JSValue).length ([JSValue.num 2] : List JSValue).length
      ∧ (zip [JSValue.num 1] [JSValue.num 2] (fun (_ l _ : JSValue) => l)
          JSValue.null).getD 0 .undefined
        = (fun (_ l _ : JSValue) => l) JSValue.null
            (([JSValue.num 1] : List JSValue).getD 0 .undefined)
            (([JSValue.num 2] : List JSValue).getD 0 .undefined) := by
  exact ⟨by decide,
    (zip_min_length_pairs [JSValue.num 1] [JSValue.num 2]
      (fun (_ l _ : JSValue) => l) JSValue.null).2.1 0 (by decide)⟩

/-- C8: `map` produces exactly the image of the input, in order — it equals
the standard elementwise map, preserves the length, sends the element at
each index below the length to `fn` of the input element at that index,
sends the empty input to the empty output, and with an identity function
returns the input elementwise. -/
theorem map_preserves_length_order (items : List JSValue)
    (fn : JSValue → JSValue → JSValue) (context : JSValue) :
    map items fn context = items.map (fn context)
      ∧ (map items fn context).length = items.length
      ∧ (∀ i, i < items.length →
          (map items fn context).getD i .undefined = fn context (items.getD i .undefined))
      ∧ map [] fn context = []
      ∧ map items (fun (_ x : JSValue) => x) context = items := by
  have hm : map items fn context = items.map (fn context) := by
    simp [map, mapGo_eq]
  refine ⟨hm, ?_, ?_, rfl, ?_⟩
  · rw [hm]; simp
  · intro i hi
    rw [hm, List.getD_eq_getElem _ _ (by simpa using hi), List.getD_eq_getElem _ _ hi]
    simp
  · simp [map, mapGo_eq]

/-- C8 witness: mapping the identity over the singleton array [4], the
element at index 0 is the input element at index 0. -/
theorem map_preserves_length_order_witness :
    0 < ([JSValue.num 4] : List JSValue).length
      ∧ (map [JSValue.num 4] (fun (_ x : JSValue) => x) JSValue.null).getD 0 .undefined
        = (fun (_ x : JSValue) => x) JSValue.null
            (([JSValue.num 4] : List JSValue).getD 0 .undefined) := by
  exact ⟨by decide,
    (map_preserves_length_order [JSValue.num 4] (fun (_ x : JSValue) => x)
      JSValue.null).2.2.1 0 (by decide)⟩

/-- C9: for every pure boolean-valued predicate, filtering by it and then
testing the result with `every` and the same predicate yields the boolean
true: every kept element satisfies the predicate, so the accumulator never
leaves the boolean true. -/
theorem every_filter_true (s : List JSValue) (p : JSValue → JSValue → Bool)
    (context : JSValue) :
    every (filter s (fun c i => JSValue.bool (p c i)) context)
        (fun c i => JSValue.bool (p c i)) context = JSValue.bool true := by
  rw [every]
  apply everyGo_all_true
  intro x hx
  rw [filter, filterGo_eq] at hx
  simp only [List.nil_append, List.mem_filter, truthy] at hx
  simp [hx.2]

end NanobashJS
